import Mathlib

/-!
Verification of the core client machinery of the pravega segment-store client:
the reader-group coordination state (`reader_group_state.rs`), the byte-stream
reader/writer surface (`byte_stream.rs`), the segment reactor termination and
drain logic (`reactor/reactors.rs`), and the table-map read path (`tablemap.rs`).

The Rust code is shallowly embedded: the synchronizer table holding the
reader-group state is modelled as association lists keyed by the same keys the
Rust code uses (`HashMap` iteration order is unspecified in Rust; the embedding
uses list order where the code picks an arbitrary element). `table.insert`
overwrites, `table.insert_tombstone` removes. Rust error returns become
`Except`; a Rust `expect`/`panic!` is a distinct `panicErr` outcome. Machine
integers that can wrap (`u64 as i64`, `i64 +`) are modelled on `Int` with
explicit two's-complement wrapping.
-/

namespace Pravega

instance {e a : Type} [DecidableEq e] [DecidableEq a] : DecidableEq (Except e a) := fun x y =>
  match x, y with
  | .error e1, .error e2 =>
    if h : e1 = e2 then .isTrue (by rw [h]) else .isFalse (fun hh => by cases hh; exact h rfl)
  | .error _, .ok _ => .isFalse (fun hh => by cases hh)
  | .ok _, .error _ => .isFalse (fun hh => by cases hh)
  | .ok a1, .ok a2 =>
    if h : a1 = a2 then .isTrue (by rw [h]) else .isFalse (fun hh => by cases hh; exact h rfl)

/-! ## Association lists (model of the synchronizer table's HashMaps) -/

def alookup {K V : Type} [DecidableEq K] : List (K × V) → K → Option V
  | [], _ => none
  | p :: rest, k => if k = p.1 then some p.2 else alookup rest k

def ainsert {K V : Type} [DecidableEq K] (l : List (K × V)) (k : K) (v : V) : List (K × V) :=
  (k, v) :: l.filter (fun p => decide (p.1 ≠ k))

def aerase {K V : Type} [DecidableEq K] (l : List (K × V)) (k : K) : List (K × V) :=
  l.filter (fun p => decide (p.1 ≠ k))

theorem alookup_nil {K V : Type} [DecidableEq K] (k : K) :
    alookup ([] : List (K × V)) k = none := rfl

theorem alookup_cons {K V : Type} [DecidableEq K] (p : K × V) (l : List (K × V)) (k : K) :
    alookup (p :: l) k = if k = p.1 then some p.2 else alookup l k := rfl

theorem alookup_filter_ne {K V : Type} [DecidableEq K] (l : List (K × V)) (k k' : K)
    (h : k' ≠ k) : alookup (l.filter (fun p => decide (p.1 ≠ k))) k' = alookup l k' := by
  induction l with
  | nil => rfl
  | cons p rest ih =>
    rw [List.filter_cons]
    by_cases hp : p.1 = k
    · rw [if_neg (by simp [hp]), ih, alookup_cons, if_neg (fun hh => h (hp ▸ hh))]
    · rw [if_pos (by simp [hp]), alookup_cons, alookup_cons]
      by_cases hk : k' = p.1
      · rw [if_pos hk, if_pos hk]
      · rw [if_neg hk, if_neg hk, ih]

theorem alookup_filter_self {K V : Type} [DecidableEq K] (l : List (K × V)) (k : K) :
    alookup (l.filter (fun p => decide (p.1 ≠ k))) k = none := by
  induction l with
  | nil => rfl
  | cons p rest ih =>
    rw [List.filter_cons]
    by_cases hp : p.1 = k
    · rw [if_neg (by simp [hp])]
      exact ih
    · rw [if_pos (by simp [hp]), alookup_cons, if_neg (fun hh => hp hh.symm)]
      exact ih

theorem alookup_ainsert_self {K V : Type} [DecidableEq K] (l : List (K × V)) (k : K) (v : V) :
    alookup (ainsert l k v) k = some v := by
  rw [ainsert, alookup_cons, if_pos rfl]

theorem alookup_ainsert_ne {K V : Type} [DecidableEq K] (l : List (K × V)) (k k' : K) (v : V)
    (h : k' ≠ k) : alookup (ainsert l k v) k' = alookup l k' := by
  rw [ainsert, alookup_cons, if_neg h, alookup_filter_ne l k k' h]

theorem alookup_aerase_self {K V : Type} [DecidableEq K] (l : List (K × V)) (k : K) :
    alookup (aerase l k) k = none :=
  alookup_filter_self l k

theorem alookup_aerase_ne {K V : Type} [DecidableEq K] (l : List (K × V)) (k k' : K)
    (h : k' ≠ k) : alookup (aerase l k) k' = alookup l k' :=
  alookup_filter_ne l k k' h

theorem alookup_isSome_of_mem {K V : Type} [DecidableEq K] {l : List (K × V)} {k : K} {v : V}
    (h : (k, v) ∈ l) : (alookup l k).isSome := by
  induction l with
  | nil => cases h
  | cons p rest ih =>
    rcases List.mem_cons.mp h with h1 | h2
    · rw [alookup_cons, ← h1, if_pos rfl]
      rfl
    · rw [alookup_cons]
      by_cases hk : k = p.1
      · rw [if_pos hk]
        rfl
      · rw [if_neg hk]
        exact ih h2

theorem alookup_eq_some_mem {K V : Type} [DecidableEq K] {l : List (K × V)} {k : K} {v : V}
    (h : alookup l k = some v) : (k, v) ∈ l := by
  induction l with
  | nil => cases h
  | cons p rest ih =>
    rw [alookup_cons] at h
    by_cases hk : k = p.1
    · rw [if_pos hk] at h
      have hp : (k, v) = p := by
        cases p
        simp_all
      rw [hp]
      exact List.mem_cons_self _ _
    · rw [if_neg hk] at h
      exact List.mem_cons_of_mem _ (ih h)

theorem alookup_map_values {K V W : Type} [DecidableEq K] (l : List (K × V)) (g : V → W)
    (k : K) : alookup (l.map (fun p => (p.1, g p.2))) k = (alookup l k).map g := by
  induction l with
  | nil => rfl
  | cons p rest ih =>
    rw [List.map_cons, alookup_cons, alookup_cons]
    by_cases hk : k = p.1
    · rw [if_pos hk, if_pos hk]
      rfl
    · rw [if_neg hk, if_neg hk, ih]

theorem alookup_foldl_ainsert_const {K V : Type} [DecidableEq K]
    (l : List K) (u0 : List (K × V)) (v : V) (s : K) :
    alookup (l.foldl (fun u x => ainsert u x v) u0) s =
      if s ∈ l then some v else alookup u0 s := by
  induction l generalizing u0 with
  | nil => simp
  | cons x rest ih =>
    rw [List.foldl_cons, ih]
    by_cases hmem : s ∈ rest
    · rw [if_pos hmem, if_pos (List.mem_cons.mpr (Or.inr hmem))]
    · rw [if_neg hmem]
      by_cases hx : s = x
      · rw [if_pos (List.mem_cons.mpr (Or.inl hx)), hx, alookup_ainsert_self]
      · rw [if_neg (fun hh => (List.mem_cons.mp hh).elim hx hmem),
          alookup_ainsert_ne _ _ _ _ hx]

theorem alookup_foldl_aerase {K V : Type} [DecidableEq K]
    (l : List K) (f0 : List (K × V)) (s : K) :
    alookup (l.foldl (fun f x => aerase f x) f0) s =
      if s ∈ l then none else alookup f0 s := by
  induction l generalizing f0 with
  | nil => simp
  | cons x rest ih =>
    rw [List.foldl_cons, ih]
    by_cases hmem : s ∈ rest
    · rw [if_pos hmem, if_pos (List.mem_cons.mpr (Or.inr hmem))]
    · rw [if_neg hmem]
      by_cases hx : s = x
      · rw [if_pos (List.mem_cons.mpr (Or.inl hx)), hx, alookup_aerase_self]
      · rw [if_neg (fun hh => (List.mem_cons.mp hh).elim hx hmem),
          alookup_aerase_ne _ _ _ hx]

theorem alookup_foldl_ainsert_isSome {K V A : Type} [DecidableEq K]
    (l : List A) (key : A → K) (val : A → V) (u0 : List (K × V)) (s : K) :
    (alookup (l.foldl (fun u p => ainsert u (key p) (val p)) u0) s).isSome ↔
      (∃ p ∈ l, key p = s) ∨ (alookup u0 s).isSome := by
  induction l generalizing u0 with
  | nil => simp
  | cons x rest ih =>
    rw [List.foldl_cons, ih]
    constructor
    · rintro (⟨p, hp, hkey⟩ | hsome)
      · exact Or.inl ⟨p, List.mem_cons.mpr (Or.inr hp), hkey⟩
      · by_cases hx : s = key x
        · exact Or.inl ⟨x, List.mem_cons.mpr (Or.inl rfl), hx.symm⟩
        · rw [alookup_ainsert_ne _ _ _ _ hx] at hsome
          exact Or.inr hsome
    · rintro (⟨p, hp, hkey⟩ | hsome)
      · rcases List.mem_cons.mp hp with hp1 | hp2
        · subst hp1
          refine Or.inr ?_
          rw [hkey, alookup_ainsert_self]
          rfl
        · exact Or.inl ⟨p, hp2, hkey⟩
      · by_cases hx : s = key x
        · refine Or.inr ?_
          rw [hx, alookup_ainsert_self]
          rfl
        · refine Or.inr ?_
          rw [alookup_ainsert_ne _ _ _ _ hx]
          exact hsome

theorem alookup_foldl_cond_ainsert_isSome {K V A : Type} [DecidableEq K]
    (l : List A) (key : A → K) (val : A → V) (f0 : List (K × V)) (s : K) :
    (alookup (l.foldl
        (fun f p => if (alookup f (key p)).isSome then f else ainsert f (key p) (val p)) f0)
      s).isSome ↔
      (alookup f0 s).isSome ∨ (∃ p ∈ l, key p = s) := by
  induction l generalizing f0 with
  | nil => simp
  | cons x rest ih =>
    rw [List.foldl_cons, ih]
    by_cases hc : (alookup f0 (key x)).isSome
    · rw [if_pos hc]
      constructor
      · rintro (h | ⟨p, hp, hkey⟩)
        · exact Or.inl h
        · exact Or.inr ⟨p, List.mem_cons.mpr (Or.inr hp), hkey⟩
      · rintro (h | ⟨p, hp, hkey⟩)
        · exact Or.inl h
        · rcases List.mem_cons.mp hp with hp1 | hp2
          · subst hp1
            rw [hkey] at hc
            exact Or.inl hc
          · exact Or.inr ⟨p, hp2, hkey⟩
    · rw [if_neg hc]
      constructor
      · rintro (h | ⟨p, hp, hkey⟩)
        · by_cases hx : s = key x
          · exact Or.inr ⟨x, List.mem_cons.mpr (Or.inl rfl), hx.symm⟩
          · rw [alookup_ainsert_ne _ _ _ _ hx] at h
            exact Or.inl h
        · exact Or.inr ⟨p, List.mem_cons.mpr (Or.inr hp), hkey⟩
      · rintro (h | ⟨p, hp, hkey⟩)
        · by_cases hx : s = key x
          · refine Or.inl ?_
            rw [hx, alookup_ainsert_self]
            rfl
          · refine Or.inl ?_
            rw [alookup_ainsert_ne _ _ _ _ hx]
            exact h
        · rcases List.mem_cons.mp hp with hp1 | hp2
          · subst hp1
            refine Or.inl ?_
            rw [hkey, alookup_ainsert_self]
            rfl
          · exact Or.inr ⟨p, hp2, hkey⟩

/-! ## Reader-group state data model (`reader_group_state.rs`)

`Reader` is a string newtype in Rust. `Segment` carries a number (and an
always-`None` tx id, omitted); routing-range endpoints are `OrderedFloat<f64>`
used only for equality and hashing, modelled as `Int`. The synchronizer table's
reader-group rows (`assigned_segments`, `unassigned_segments`,
`future_segments`, `distance_to_tail`) are modelled directly with their
deserialized values. -/

abbrev Reader := String

structure ScopedSegment where
  scope : String
  stream : String
  segment : Int
deriving DecidableEq, Repr

structure SegmentWithRange where
  scoped_segment : ScopedSegment
  min_key : Int
  max_key : Int
deriving DecidableEq, Repr

structure Offset where
  read : Nat
  processed : Nat
deriving DecidableEq, Repr

/-- The reader-group portion of the synchronizer table. -/
structure RGTable where
  assigned : List (Reader × List (SegmentWithRange × Offset))
  unassigned : List (SegmentWithRange × Offset)
  future : List (SegmentWithRange × List Int)
  distance : List (Reader × Nat)
deriving DecidableEq, Repr

/-- Failure of an `update_fn`: a clean `SynchronizerError` return, or a Rust
panic (`expect`). On either outcome the optimistic transaction submits nothing,
so the stored state is unchanged. -/
inductive RgsErr
  | readerAlreadyOnline
  | readerNotOnline
  | releaseNotExactlyOne
  | releaseAlreadyUnassigned
  | panicNotAssignedToReader
deriving DecidableEq, Repr

def u64MAX : Nat := 2 ^ 64 - 1

/-- `ReaderGroupState::add_reader_internal`. -/
def add_reader_internal (t : RGTable) (r : Reader) : Except RgsErr RGTable :=
  if (alookup t.assigned r).isSome then
    .error .readerAlreadyOnline
  else
    .ok { t with
      assigned := ainsert t.assigned r [],
      distance := ainsert t.distance r u64MAX }

/-- `ReaderGroupState::remove_reader_internal`. Offsets for the released
segments come from the caller-supplied `owned_segments` when present, else the
stored position. -/
def remove_reader_internal (t : RGTable) (r : Reader)
    (owned : List (ScopedSegment × Offset)) : Except RgsErr RGTable :=
  match alookup t.assigned r with
  | none => .error .readerNotOnline
  | some assignedSegs =>
    .ok { t with
      assigned := aerase t.assigned r,
      unassigned := assignedSegs.foldl
        (fun u p => ainsert u p.1 ((alookup owned p.1.scoped_segment).getD p.2))
        t.unassigned,
      distance := aerase t.distance r }

/-- `ReaderGroupState::assign_segment_to_reader_internal`. The Rust code pops
an arbitrary key of the `unassigned` HashMap; the embedding takes the head of
the list. -/
def assign_segment_to_reader_internal (t : RGTable) (r : Reader) :
    Except RgsErr (Option ScopedSegment × RGTable) :=
  match alookup t.assigned r with
  | none => .error .readerNotOnline
  | some assignedSegs =>
    match t.unassigned with
    | [] => .ok (none, t)
    | (seg, off) :: _ =>
      .ok (some seg.scoped_segment,
        { t with
          assigned := ainsert t.assigned r (ainsert assignedSegs seg off),
          unassigned := aerase t.unassigned seg })

/-- `ReaderGroupState::release_segment_internal`. -/
def release_segment_internal (t : RGTable) (r : Reader) (segment : ScopedSegment)
    (offset : Offset) : Except RgsErr RGTable :=
  match alookup t.assigned r with
  | none => .error .readerNotOnline
  | some assignedSegs =>
    match assignedSegs.filter (fun p => decide (p.1.scoped_segment = segment)) with
    | [(toRemove, _)] =>
      if (alookup t.unassigned toRemove).isSome then
        .error .releaseAlreadyUnassigned
      else
        .ok { t with
          assigned := ainsert t.assigned r (aerase assignedSegs toRemove),
          unassigned := ainsert t.unassigned toRemove offset }
    | _ => .error .releaseNotExactlyOne

/-- Step 2 and 3 of `ReaderGroupState::segment_completed_internal`: insert the
missing successors with their (set-valued, hence deduplicated) predecessor
lists, then remove the completed segment's number from every entry. Entries
whose set did not change are rewritten with the same value in Rust, a no-op. -/
def futureAfterCompletion (future : List (SegmentWithRange × List Int))
    (completed : SegmentWithRange)
    (succs : List (SegmentWithRange × List Int)) : List (SegmentWithRange × List Int) :=
  ((succs.foldl
      (fun f p => if (alookup f p.1).isSome then f else ainsert f p.1 p.2.dedup)
      future).map
    (fun p => (p.1, p.2.filter (fun x => decide (x ≠ completed.scoped_segment.segment)))))

/-- `ReaderGroupState::segment_completed_internal`. Removing the completed
segment from the reader's map goes through
`.expect("should have assigned this segment to reader")`: when the segment is
not assigned to the reader, the Rust code panics. -/
def segment_completed_internal (t : RGTable) (r : Reader)
    (completed : SegmentWithRange)
    (succs : List (SegmentWithRange × List Int)) : Except RgsErr RGTable :=
  match alookup t.assigned r with
  | none => .error .readerNotOnline
  | some assignedSegs =>
    if (alookup assignedSegs completed).isSome then
      let future2 := futureAfterCompletion t.future completed succs
      let ready := (future2.filter (fun p => p.2.isEmpty)).map (fun p => p.1)
      .ok { t with
        assigned := ainsert t.assigned r (aerase assignedSegs completed),
        unassigned := ready.foldl (fun u s => ainsert u s (Offset.mk 0 0)) t.unassigned,
        future := ready.foldl (fun f s => aerase f s) future2 }
    else
      .error .panicNotAssignedToReader

/-- Whether `err` is a panic (aborts the process) rather than a clean
`SynchronizerError` value. -/
def RgsErr.isPanic : RgsErr → Bool
  | .panicNotAssignedToReader => true
  | _ => false

/-! ## The exactly-one-place invariant -/

/-- The segment appears in some reader's assigned map. -/
def InAssignedL (a : List (Reader × List (SegmentWithRange × Offset)))
    (s : SegmentWithRange) : Prop :=
  ∃ r m, alookup a r = some m ∧ (alookup m s).isSome

/-- No segment appears in two distinct readers' assigned maps. -/
def AssignedUniqueL (a : List (Reader × List (SegmentWithRange × Offset))) : Prop :=
  ∀ s r₁ r₂ m₁ m₂, alookup a r₁ = some m₁ → alookup a r₂ = some m₂ →
    (alookup m₁ s).isSome → (alookup m₂ s).isSome → r₁ = r₂

/-- Each segment-with-range appears in at most one of: some reader's assigned
map, the unassigned map, the future map (and in at most one assigned map). A
segment appearing in none of them is simply not tracked. -/
def Inv (t : RGTable) : Prop :=
  AssignedUniqueL t.assigned ∧
  (∀ s, InAssignedL t.assigned s → ¬ (alookup t.unassigned s).isSome) ∧
  (∀ s, InAssignedL t.assigned s → ¬ (alookup t.future s).isSome) ∧
  (∀ s, (alookup t.unassigned s).isSome → ¬ (alookup t.future s).isSome)

theorem isSome_aerase {K V : Type} [DecidableEq K] {l : List (K × V)} {k s : K}
    (h : (alookup (aerase l k) s).isSome) : s ≠ k ∧ (alookup l s).isSome := by
  by_cases hs : s = k
  · rw [hs, alookup_aerase_self] at h
    cases h
  · rw [alookup_aerase_ne _ _ _ hs] at h
    exact ⟨hs, h⟩

theorem inAssigned_ainsert_elim {a : List (Reader × List (SegmentWithRange × Offset))}
    {r : Reader} {m2 : List (SegmentWithRange × Offset)} {s : SegmentWithRange}
    (h : InAssignedL (ainsert a r m2) s) :
    (alookup m2 s).isSome ∨
      ∃ r' m', r' ≠ r ∧ alookup a r' = some m' ∧ (alookup m' s).isSome := by
  obtain ⟨r', m', h1, h2⟩ := h
  by_cases hr : r' = r
  · rw [hr, alookup_ainsert_self] at h1
    cases h1
    exact Or.inl h2
  · rw [alookup_ainsert_ne _ _ _ _ hr] at h1
    exact Or.inr ⟨r', m', hr, h1, h2⟩

theorem inAssigned_aerase_elim {a : List (Reader × List (SegmentWithRange × Offset))}
    {r : Reader} {s : SegmentWithRange}
    (h : InAssignedL (aerase a r) s) :
    ∃ r' m', r' ≠ r ∧ alookup a r' = some m' ∧ (alookup m' s).isSome := by
  obtain ⟨r', m', h1, h2⟩ := h
  by_cases hr : r' = r
  · rw [hr, alookup_aerase_self] at h1
    cases h1
  · rw [alookup_aerase_ne _ _ _ hr] at h1
    exact ⟨r', m', hr, h1, h2⟩

theorem add_reader_preserves_inv (t : RGTable) (r : Reader) (t' : RGTable)
    (hinv : Inv t) (hok : add_reader_internal t r = .ok t') : Inv t' := by
  obtain ⟨hu, hau, haf, huf⟩ := hinv
  unfold add_reader_internal at hok
  by_cases h : (alookup t.assigned r).isSome
  · rw [if_pos h] at hok
    cases hok
  · rw [if_neg h] at hok
    cases hok
    have hA : ∀ s, InAssignedL (ainsert t.assigned r []) s → InAssignedL t.assigned s := by
      intro s hs
      rcases inAssigned_ainsert_elim hs with h1 | ⟨r', m', _, h2, h3⟩
      · cases h1
      · exact ⟨r', m', h2, h3⟩
    refine ⟨?_, ?_, ?_, ?_⟩
    · intro s r₁ r₂ m₁ m₂ h1 h2 h3 h4
      dsimp only at h1 h2
      by_cases hr1 : r₁ = r
      · rw [hr1, alookup_ainsert_self] at h1
        cases h1
        cases h3
      · by_cases hr2 : r₂ = r
        · rw [hr2, alookup_ainsert_self] at h2
          cases h2
          cases h4
        · rw [alookup_ainsert_ne _ _ _ _ hr1] at h1
          rw [alookup_ainsert_ne _ _ _ _ hr2] at h2
          exact hu s r₁ r₂ m₁ m₂ h1 h2 h3 h4
    · intro s hs
      exact hau s (hA s hs)
    · intro s hs
      exact haf s (hA s hs)
    · intro s hs
      exact huf s hs

theorem remove_reader_preserves_inv (t : RGTable) (r : Reader)
    (owned : List (ScopedSegment × Offset)) (t' : RGTable)
    (hinv : Inv t) (hok : remove_reader_internal t r owned = .ok t') : Inv t' := by
  obtain ⟨hu, hau, haf, huf⟩ := hinv
  unfold remove_reader_internal at hok
  cases hm : alookup t.assigned r with
  | none =>
    rw [hm] at hok
    cases hok
  | some assignedSegs =>
    rw [hm] at hok
    cases hok
    have hU : ∀ s, (alookup (assignedSegs.foldl
        (fun u p => ainsert u p.1 ((alookup owned p.1.scoped_segment).getD p.2))
        t.unassigned) s).isSome →
        (∃ p ∈ assignedSegs, p.1 = s) ∨ (alookup t.unassigned s).isSome := by
      intro s hs
      exact (alookup_foldl_ainsert_isSome assignedSegs (fun p => p.1)
        (fun p => (alookup owned p.1.scoped_segment).getD p.2) t.unassigned s).mp hs
    have hA : ∀ s, InAssignedL (aerase t.assigned r) s →
        InAssignedL t.assigned s ∧ ¬ (alookup assignedSegs s).isSome := by
      intro s hs
      obtain ⟨r', m', hr, h1, h2⟩ := inAssigned_aerase_elim hs
      refine ⟨⟨r', m', h1, h2⟩, fun hmem => ?_⟩
      exact hr (hu s r' r m' assignedSegs h1 hm h2 hmem)
    refine ⟨?_, ?_, ?_, ?_⟩
    · intro s r₁ r₂ m₁ m₂ h1 h2 h3 h4
      dsimp only at h1 h2
      obtain ⟨_, h1'⟩ := isSome_aerase (l := t.assigned) (k := r) (s := r₁)
        (by rw [h1]; rfl)
      obtain ⟨_, h2'⟩ := isSome_aerase (l := t.assigned) (k := r) (s := r₂)
        (by rw [h2]; rfl)
      by_cases hr1 : r₁ = r
      · rw [hr1, alookup_aerase_self] at h1
        cases h1
      · by_cases hr2 : r₂ = r
        · rw [hr2, alookup_aerase_self] at h2
          cases h2
        · rw [alookup_aerase_ne _ _ _ hr1] at h1
          rw [alookup_aerase_ne _ _ _ hr2] at h2
          exact hu s r₁ r₂ m₁ m₂ h1 h2 h3 h4
    · intro s hs hsu
      obtain ⟨hst, hnm⟩ := hA s hs
      rcases hU s hsu with ⟨p, hp, hps⟩ | h2
      · refine hnm ?_
        rw [← hps]
        exact alookup_isSome_of_mem (l := assignedSegs) (k := p.1) (v := p.2)
          (by rw [Prod.mk.eta]; exact hp)
      · exact hau s hst h2
    · intro s hs
      exact haf s (hA s hs).1
    · intro s hsu hsf
      dsimp only at hsu hsf
      rcases hU s hsu with ⟨p, hp, hps⟩ | h2
      · refine haf s ⟨r, assignedSegs, hm, ?_⟩ hsf
        rw [← hps]
        exact alookup_isSome_of_mem (l := assignedSegs) (k := p.1) (v := p.2)
          (by rw [Prod.mk.eta]; exact hp)
      · exact huf s h2 hsf

theorem assign_segment_preserves_inv (t : RGTable) (r : Reader)
    (res : Option ScopedSegment) (t' : RGTable)
    (hinv : Inv t) (hok : assign_segment_to_reader_internal t r = .ok (res, t')) : Inv t' := by
  obtain ⟨hu, hau, haf, huf⟩ := hinv
  unfold assign_segment_to_reader_internal at hok
  cases hm : alookup t.assigned r with
  | none =>
    rw [hm] at hok
    cases hok
  | some assignedSegs =>
    rw [hm] at hok
    cases hun : t.unassigned with
    | nil =>
      rw [hun] at hok
      cases hok
      exact ⟨hu, hau, haf, huf⟩
    | cons p rest =>
      rw [hun] at hok
      cases hok
      obtain ⟨seg, off⟩ := p
      rw [hun] at hau huf
      have hsegU : (alookup ((seg, off) :: rest) seg).isSome := by
        rw [alookup_cons, if_pos rfl]
        rfl
      have hA : ∀ s, InAssignedL (ainsert t.assigned r (ainsert assignedSegs seg off)) s →
          s = seg ∨ InAssignedL t.assigned s := by
        intro s hs
        rcases inAssigned_ainsert_elim hs with h1 | ⟨r', m', _, h2, h3⟩
        · by_cases hseq : s = seg
          · exact Or.inl hseq
          · rw [alookup_ainsert_ne _ _ _ _ hseq] at h1
            exact Or.inr ⟨r, assignedSegs, hm, h1⟩
        · exact Or.inr ⟨r', m', h2, h3⟩
      refine ⟨?_, ?_, ?_, ?_⟩
      · intro s r₁ r₂ m₁ m₂ h1 h2 h3 h4
        dsimp only at h1 h2
        by_cases hr1 : r₁ = r
        · by_cases hr2 : r₂ = r
          · rw [hr1, hr2]
          · rw [hr1, alookup_ainsert_self] at h1
            cases h1
            rw [alookup_ainsert_ne _ _ _ _ hr2] at h2
            by_cases hseq : s = seg
            · exfalso
              refine hau s ⟨r₂, m₂, h2, ?_⟩ (hseq ▸ hsegU)
              exact hseq ▸ h4
            · rw [alookup_ainsert_ne _ _ _ _ hseq] at h3
              rw [hr1]
              exact (hu s r₂ r m₂ assignedSegs h2 hm h4 h3).symm
        · by_cases hr2 : r₂ = r
          · rw [hr2, alookup_ainsert_self] at h2
            cases h2
            rw [alookup_ainsert_ne _ _ _ _ hr1] at h1
            by_cases hseq : s = seg
            · exfalso
              refine hau s ⟨r₁, m₁, h1, ?_⟩ (hseq ▸ hsegU)
              exact hseq ▸ h3
            · rw [alookup_ainsert_ne _ _ _ _ hseq] at h4
              rw [hr2]
              exact hu s r₁ r m₁ assignedSegs h1 hm h3 h4
          · rw [alookup_ainsert_ne _ _ _ _ hr1] at h1
            rw [alookup_ainsert_ne _ _ _ _ hr2] at h2
            exact hu s r₁ r₂ m₁ m₂ h1 h2 h3 h4
      · intro s hs hsu
        dsimp only at hs hsu
        by_cases hseq : s = seg
        · rw [hseq, alookup_aerase_self] at hsu
          cases hsu
        · rw [alookup_aerase_ne _ _ _ hseq] at hsu
          rcases hA s hs with h1 | h1
          · exact hseq h1
          · exact hau s h1 hsu
      · intro s hs hsf
        dsimp only at hs hsf
        rcases hA s hs with h1 | h1
        · exact huf seg (h1 ▸ hsegU) (h1 ▸ hsf)
        · exact haf s h1 hsf
      · intro s hsu hsf
        dsimp only at hsu hsf
        obtain ⟨hne, hsu'⟩ := isSome_aerase hsu
        exact huf s hsu' hsf

theorem release_segment_preserves_inv (t : RGTable) (r : Reader)
    (segment : ScopedSegment) (offset : Offset) (t' : RGTable)
    (hinv : Inv t) (hok : release_segment_internal t r segment offset = .ok t') : Inv t' := by
  obtain ⟨hu, hau, haf, huf⟩ := hinv
  unfold release_segment_internal at hok
  split at hok
  · cases hok
  · rename_i assignedSegs hm
    split at hok
    · rename_i toRemove off' hfil
      split at hok
      · cases hok
      · rename_i hchk
        cases hok
        have hmem : (toRemove, off') ∈ assignedSegs := by
          have hmf : (toRemove, off') ∈ assignedSegs.filter
              (fun p => decide (p.1.scoped_segment = segment)) := by
            rw [hfil]
            exact List.mem_cons_self _ _
          exact (List.mem_filter.mp hmf).1
        have hrsome : (alookup assignedSegs toRemove).isSome :=
          alookup_isSome_of_mem hmem
        have hA : ∀ s, InAssignedL (ainsert t.assigned r (aerase assignedSegs toRemove)) s →
            (s ≠ toRemove ∧ InAssignedL t.assigned s) ∨
            (∃ r' m', r' ≠ r ∧ alookup t.assigned r' = some m' ∧ (alookup m' s).isSome) := by
          intro s hs
          rcases inAssigned_ainsert_elim hs with h1 | ⟨r', m', hr, h2, h3⟩
          · obtain ⟨hne, h1'⟩ := isSome_aerase h1
            exact Or.inl ⟨hne, r, assignedSegs, hm, h1'⟩
          · exact Or.inr ⟨r', m', hr, h2, h3⟩
        have hA' : ∀ s, InAssignedL (ainsert t.assigned r (aerase assignedSegs toRemove)) s →
            s ≠ toRemove ∧ InAssignedL t.assigned s := by
          intro s hs
          rcases hA s hs with h1 | ⟨r', m', hr, h2, h3⟩
          · exact h1
          · refine ⟨fun hseq => ?_, ⟨r', m', h2, h3⟩⟩
            exact hr (hu s r' r m' assignedSegs h2 hm h3 (hseq ▸ hrsome))
        refine ⟨?_, ?_, ?_, ?_⟩
        · intro s r₁ r₂ m₁ m₂ h1 h2 h3 h4
          dsimp only at h1 h2
          by_cases hr1 : r₁ = r
          · by_cases hr2 : r₂ = r
            · rw [hr1, hr2]
            · rw [hr1, alookup_ainsert_self] at h1
              cases h1
              rw [alookup_ainsert_ne _ _ _ _ hr2] at h2
              obtain ⟨hne, h3'⟩ := isSome_aerase h3
              rw [hr1]
              exact (hu s r₂ r m₂ assignedSegs h2 hm h4 h3').symm
          · by_cases hr2 : r₂ = r
            · rw [hr2, alookup_ainsert_self] at h2
              cases h2
              rw [alookup_ainsert_ne _ _ _ _ hr1] at h1
              obtain ⟨hne, h4'⟩ := isSome_aerase h4
              rw [hr2]
              exact hu s r₁ r m₁ assignedSegs h1 hm h3 h4'
            · rw [alookup_ainsert_ne _ _ _ _ hr1] at h1
              rw [alookup_ainsert_ne _ _ _ _ hr2] at h2
              exact hu s r₁ r₂ m₁ m₂ h1 h2 h3 h4
        · intro s hs hsu
          dsimp only at hs hsu
          obtain ⟨hne, hst⟩ := hA' s hs
          rw [alookup_ainsert_ne _ _ _ _ hne] at hsu
          exact hau s hst hsu
        · intro s hs hsf
          dsimp only at hs hsf
          exact haf s (hA' s hs).2 hsf
        · intro s hsu hsf
          dsimp only at hsu hsf
          by_cases hseq : s = toRemove
          · refine haf s ⟨r, assignedSegs, hm, hseq ▸ hrsome⟩ hsf
          · rw [alookup_ainsert_ne _ _ _ _ hseq] at hsu
            exact huf s hsu hsf
    · cases hok

theorem alookup_map_filter_pred {K : Type} [DecidableEq K] (l : List (K × List Int))
    (q : Int → Bool) (k : K) :
    alookup (l.map (fun p => (p.1, p.2.filter q))) k = (alookup l k).map (fun v => v.filter q) := by
  induction l with
  | nil => rfl
  | cons p rest ih =>
    rw [List.map_cons, alookup_cons, alookup_cons]
    by_cases hk : k = p.1
    · rw [if_pos hk, if_pos hk]
      rfl
    · rw [if_neg hk, if_neg hk, ih]

theorem alookup_futureAfterCompletion_isSome (future : List (SegmentWithRange × List Int))
    (completed : SegmentWithRange) (succs : List (SegmentWithRange × List Int))
    (s : SegmentWithRange) :
    (alookup (futureAfterCompletion future completed succs) s).isSome ↔
      (alookup future s).isSome ∨ ∃ p ∈ succs, p.1 = s := by
  unfold futureAfterCompletion
  rw [alookup_map_filter_pred]
  have hbase := alookup_foldl_cond_ainsert_isSome succs (fun p => p.1)
    (fun p => p.2.dedup) future s
  rw [← hbase]
  cases alookup (succs.foldl
      (fun f p => if (alookup f p.1).isSome then f else ainsert f p.1 p.2.dedup) future) s with
  | none => rfl
  | some v => rfl

theorem segment_completed_preserves_inv (t : RGTable) (r : Reader)
    (completed : SegmentWithRange) (succs : List (SegmentWithRange × List Int)) (t' : RGTable)
    (hinv : Inv t)
    (hfresh : ∀ p ∈ succs,
      ¬ InAssignedL t.assigned p.1 ∧ ¬ (alookup t.unassigned p.1).isSome)
    (hok : segment_completed_internal t r completed succs = .ok t') : Inv t' := by
  obtain ⟨hu, hau, haf, huf⟩ := hinv
  unfold segment_completed_internal at hok
  split at hok
  · cases hok
  · rename_i assignedSegs hm
    split at hok
    · rename_i hcomp
      cases hok
      have hF2 : ∀ s, s ∈ ((futureAfterCompletion t.future completed succs).filter
          (fun p => p.2.isEmpty)).map (fun p => p.1) →
          (alookup (futureAfterCompletion t.future completed succs) s).isSome := by
        intro s hs
        obtain ⟨q, hq, hq1⟩ := List.mem_map.mp hs
        have hqf : q ∈ futureAfterCompletion t.future completed succs :=
          (List.mem_filter.mp hq).1
        refine alookup_isSome_of_mem (k := s) (v := q.2) ?_
        rw [← hq1, Prod.mk.eta]
        exact hqf
      have hReadyElim : ∀ s, s ∈ ((futureAfterCompletion t.future completed succs).filter
          (fun p => p.2.isEmpty)).map (fun p => p.1) →
          (alookup t.future s).isSome ∨ ∃ p ∈ succs, p.1 = s := by
        intro s hs
        exact (alookup_futureAfterCompletion_isSome t.future completed succs s).mp (hF2 s hs)
      have hA : ∀ s, InAssignedL (ainsert t.assigned r (aerase assignedSegs completed)) s →
          InAssignedL t.assigned s := by
        intro s hs
        rcases inAssigned_ainsert_elim hs with h1 | ⟨r', m', _, h2, h3⟩
        · obtain ⟨_, h1'⟩ := isSome_aerase h1
          exact ⟨r, assignedSegs, hm, h1'⟩
        · exact ⟨r', m', h2, h3⟩
      refine ⟨?_, ?_, ?_, ?_⟩
      · intro s r₁ r₂ m₁ m₂ h1 h2 h3 h4
        dsimp only at h1 h2
        by_cases hr1 : r₁ = r
        · by_cases hr2 : r₂ = r
          · rw [hr1, hr2]
          · rw [hr1, alookup_ainsert_self] at h1
            cases h1
            rw [alookup_ainsert_ne _ _ _ _ hr2] at h2
            obtain ⟨_, h3'⟩ := isSome_aerase h3
            rw [hr1]
            exact (hu s r₂ r m₂ assignedSegs h2 hm h4 h3').symm
        · by_cases hr2 : r₂ = r
          · rw [hr2, alookup_ainsert_self] at h2
            cases h2
            rw [alookup_ainsert_ne _ _ _ _ hr1] at h1
            obtain ⟨_, h4'⟩ := isSome_aerase h4
            rw [hr2]
            exact hu s r₁ r m₁ assignedSegs h1 hm h3 h4'
          · rw [alookup_ainsert_ne _ _ _ _ hr1] at h1
            rw [alookup_ainsert_ne _ _ _ _ hr2] at h2
            exact hu s r₁ r₂ m₁ m₂ h1 h2 h3 h4
      · intro s hs hsu
        dsimp only at hs hsu
        have hst : InAssignedL t.assigned s := hA s hs
        rw [alookup_foldl_ainsert_const] at hsu
        by_cases hrdy : s ∈ ((futureAfterCompletion t.future completed succs).filter
            (fun p => p.2.isEmpty)).map (fun p => p.1)
        · rcases hReadyElim s hrdy with h1 | ⟨p, hp, hps⟩
          · exact haf s hst h1
          · exact (hfresh p hp).1 (hps ▸ hst)
        · rw [if_neg hrdy] at hsu
          exact hau s hst hsu
      · intro s hs hsf
        dsimp only at hs hsf
        have hst : InAssignedL t.assigned s := hA s hs
        rw [alookup_foldl_aerase] at hsf
        by_cases hrdy : s ∈ ((futureAfterCompletion t.future completed succs).filter
            (fun p => p.2.isEmpty)).map (fun p => p.1)
        · rw [if_pos hrdy] at hsf
          cases hsf
        · rw [if_neg hrdy] at hsf
          rcases (alookup_futureAfterCompletion_isSome t.future completed succs s).mp hsf with
            h1 | ⟨p, hp, hps⟩
          · exact haf s hst h1
          · exact (hfresh p hp).1 (hps ▸ hst)
      · intro s hsu hsf
        dsimp only at hsu hsf
        rw [alookup_foldl_ainsert_const] at hsu
        rw [alookup_foldl_aerase] at hsf
        by_cases hrdy : s ∈ ((futureAfterCompletion t.future completed succs).filter
            (fun p => p.2.isEmpty)).map (fun p => p.1)
        · rw [if_pos hrdy] at hsf
          cases hsf
        · rw [if_neg hrdy] at hsu
          rw [if_neg hrdy] at hsf
          rcases (alookup_futureAfterCompletion_isSome t.future completed succs s).mp hsf with
            h1 | ⟨p, hp, hps⟩
          · exact huf s hsu h1
          · exact (hfresh p hp).2 (hps ▸ hsu)
    · cases hok

/-! ## Reader-group operations as a single step relation -/

inductive RGOp
  | addReader (r : Reader)
  | removeReader (r : Reader) (owned : List (ScopedSegment × Offset))
  | assignSegment (r : Reader)
  | releaseSegment (r : Reader) (s : ScopedSegment) (off : Offset)
  | segmentCompleted (r : Reader) (completed : SegmentWithRange)
      (succs : List (SegmentWithRange × List Int))

def applyRGOp (t : RGTable) : RGOp → Except RgsErr RGTable
  | .addReader r => add_reader_internal t r
  | .removeReader r owned => remove_reader_internal t r owned
  | .assignSegment r => (assign_segment_to_reader_internal t r).map (fun p => p.2)
  | .releaseSegment r s off => release_segment_internal t r s off
  | .segmentCompleted r completed succs => segment_completed_internal t r completed succs

/-- The successors handed to `segment_completed` are new segments: none of them
is already tracked in a reader's assigned map or in the unassigned map. The
other operations need no side condition. -/
def SuccessorsFresh (t : RGTable) : RGOp → Prop
  | .segmentCompleted _ _ succs =>
    ∀ p ∈ succs, ¬ InAssignedL t.assigned p.1 ∧ ¬ (alookup t.unassigned p.1).isSome
  | _ => True

/-! ## Concrete segments, readers and tables for witnesses and counterexamples -/

def readerR : Reader := "R"

def seg0 : SegmentWithRange := ⟨⟨"scope", "stream", 0⟩, 0, 1⟩

def seg1 : SegmentWithRange := ⟨⟨"scope", "stream", 1⟩, 0, 1⟩

def seg2 : SegmentWithRange := ⟨⟨"scope", "stream", 2⟩, 1, 2⟩

theorem alookup_singleton_some {K V : Type} [DecidableEq K] {k k' : K} {v w : V}
    (h : alookup [(k, v)] k' = some w) : k' = k ∧ w = v := by
  rw [alookup_cons] at h
  by_cases hk : k' = k
  · rw [if_pos hk] at h
    cases h
    exact ⟨hk, rfl⟩
  · rw [if_neg hk] at h
    cases h

theorem alookup_singleton_isSome {K V : Type} [DecidableEq K] {k k' : K} {v : V}
    (h : (alookup [(k, v)] k').isSome) : k' = k := by
  by_cases hk : k' = k
  · exact hk
  · rw [alookup_cons, if_neg hk] at h
    cases h

/-- State for the stale-successor counterexample: reader `R` owns `seg0`, and
`seg1` is already sitting in the unassigned map. -/
def tStale : RGTable :=
  { assigned := [(readerR, [(seg0, ⟨0, 0⟩)])],
    unassigned := [(seg1, ⟨5, 5⟩)],
    future := [],
    distance := [(readerR, 0)] }

/-- Result of completing `seg0` with `seg1 → [0, 99]` as successor map on
`tStale`: `seg1` ends up in both the unassigned map and the future map. -/
def tStaleAfter : RGTable :=
  { assigned := [(readerR, [])],
    unassigned := [(seg1, ⟨5, 5⟩)],
    future := [(seg1, [99])],
    distance := [(readerR, 0)] }

theorem inv_tStale : Inv tStale := by
  refine ⟨?_, ?_, ?_, ?_⟩
  · intro s r₁ r₂ m₁ m₂ h1 h2 _ _
    rw [(alookup_singleton_some h1).1, (alookup_singleton_some h2).1]
  · intro s hs hsu
    obtain ⟨r', m, h1, h2⟩ := hs
    obtain ⟨_, hm⟩ := alookup_singleton_some h1
    rw [hm] at h2
    have hs0 : s = seg0 := alookup_singleton_isSome h2
    rw [hs0] at hsu
    have : seg0 = seg1 := alookup_singleton_isSome hsu
    exact absurd this (by decide)
  · intro s hs hsf
    have hnone : alookup tStale.future s = none := rfl
    rw [hnone] at hsf
    cases hsf
  · intro s hsu hsf
    have hnone : alookup tStale.future s = none := rfl
    rw [hnone] at hsf
    cases hsf

/-- State for the promotion scenario and for the repeated-completion input:
reader `R` owns `seg0`; nothing else is tracked. -/
def tPromote : RGTable :=
  { assigned := [(readerR, [(seg0, ⟨0, 0⟩)])],
    unassigned := [],
    future := [],
    distance := [(readerR, u64MAX)] }

/-- `seg0`'s successors `seg1` and `seg2`, each predecessed only by segment
number 0. -/
def succsPromote : List (SegmentWithRange × List Int) := [(seg1, [0]), (seg2, [0])]

/-- Result of `segment_completed(R, seg0, succsPromote)` on `tPromote`. -/
def tPromoteAfter : RGTable :=
  { assigned := [(readerR, [])],
    unassigned := [(seg1, Offset.mk 0 0), (seg2, Offset.mk 0 0)],
    future := [],
    distance := [(readerR, u64MAX)] }

def tEmpty : RGTable := ⟨[], [], [], []⟩

theorem inv_tEmpty : Inv tEmpty := by
  refine ⟨?_, ?_, ?_, ?_⟩
  · intro s r₁ r₂ m₁ m₂ h1 h2 _ _
    cases h1
  · intro s hs _
    obtain ⟨r', m, h1, _⟩ := hs
    cases h1
  · intro s hs _
    obtain ⟨r', m, h1, _⟩ := hs
    cases h1
  · intro s hsu _
    cases hsu

/-- Claim C3 (amended): every reader-group operation — add_reader,
remove_reader, assign_segment_to_reader, release_segment, segment_completed —
that succeeds preserves the invariant that each tracked segment-with-range
appears in at most one of: some reader's assigned map, the unassigned map, the
future map (and never in two readers' assigned maps); for segment_completed
this requires the supplied successors to be fresh, i.e. not already tracked in
an assigned map or in the unassigned map. -/
theorem readerGroup_ops_preserve_invariant (t : RGTable) (op : RGOp) (t' : RGTable)
    (hinv : Inv t) (hfresh : SuccessorsFresh t op) (hok : applyRGOp t op = .ok t') :
    Inv t' := by
  cases op with
  | addReader r =>
    exact add_reader_preserves_inv t r t' hinv hok
  | removeReader r owned =>
    exact remove_reader_preserves_inv t r owned t' hinv hok
  | assignSegment r =>
    simp only [applyRGOp] at hok
    cases hres : assign_segment_to_reader_internal t r with
    | error e =>
      rw [hres] at hok
      cases hok
    | ok p =>
      rw [hres] at hok
      simp only [Except.map] at hok
      cases hok
      refine assign_segment_preserves_inv t r p.1 p.2 hinv ?_
      rw [Prod.mk.eta]
      exact hres
  | releaseSegment r s off =>
    exact release_segment_preserves_inv t r s off t' hinv hok
  | segmentCompleted r completed succs =>
    exact segment_completed_preserves_inv t r completed succs t' hinv hfresh hok

/-- Claim C3, counterexample to the claim as stated: on `tStale` (which
satisfies the invariant) `segment_completed` succeeds with a successor map
naming the already-unassigned `seg1`, and afterwards `seg1` is present in both
the unassigned map and the future map. -/
theorem segment_completed_stale_successor_breaks_invariant :
    Inv tStale ∧
    segment_completed_internal tStale readerR seg0 [(seg1, [0, 99])] = .ok tStaleAfter ∧
    ¬ Inv tStaleAfter := by
  refine ⟨inv_tStale, rfl, ?_⟩
  intro hinv
  obtain ⟨_, _, _, huf⟩ := hinv
  exact huf seg1 (by decide) (by decide)

/-- Claim C3, witness: adding a reader to the empty table yields a state that
satisfies the invariant. -/
theorem readerGroup_ops_preserve_invariant_witness :
    Inv (RGTable.mk [(readerR, [])] [] [] [(readerR, u64MAX)]) :=
  readerGroup_ops_preserve_invariant tEmpty (.addReader readerR)
    (RGTable.mk [(readerR, [])] [] [] [(readerR, u64MAX)]) inv_tEmpty trivial rfl

/-- Claim C2: on the state reached after a first successful
`segment_completed(R, seg0, …)` — reader `R` still online with an empty
assigned map — re-invoking `segment_completed` with the same completed segment
does not return a clean error value: it hits
`.expect("should have assigned this segment to reader")` and panics. -/
theorem segment_completed_repeat_panics :
    segment_completed_internal tPromote readerR seg0 succsPromote = .ok tPromoteAfter ∧
    segment_completed_internal tPromoteAfter readerR seg0 succsPromote =
      .error .panicNotAssignedToReader ∧
    RgsErr.panicNotAssignedToReader.isPanic = true :=
  ⟨rfl, rfl, rfl⟩

/-- Claim C7: in `segment_completed`, after the completed segment's number has
been removed from every future entry's predecessor set (step `futureAfterCompletion`),
every future entry whose predecessor set became empty is inserted into the
unassigned map with offset (0,0) and tombstoned from the future map in the same
transaction; and in the concrete scenario where reader `R` completes `seg0`
with successors `seg1` and `seg2` each predecessed only by segment 0, both end
up unassigned with offset (0,0), `seg0` is gone, and `assigned[R]` is empty. -/
theorem segment_completed_promotes_ready_successors :
    (∀ (t : RGTable) (r : Reader) (completed : SegmentWithRange)
        (succs : List (SegmentWithRange × List Int)) (t' : RGTable),
      segment_completed_internal t r completed succs = .ok t' →
      ∀ s preds, alookup (futureAfterCompletion t.future completed succs) s = some preds →
        preds = [] →
        alookup t'.unassigned s = some (Offset.mk 0 0) ∧ alookup t'.future s = none) ∧
    (segment_completed_internal tPromote readerR seg0 succsPromote = .ok tPromoteAfter ∧
      alookup tPromoteAfter.unassigned seg1 = some (Offset.mk 0 0) ∧
      alookup tPromoteAfter.unassigned seg2 = some (Offset.mk 0 0) ∧
      tPromoteAfter.assigned = [(readerR, [])] ∧
      tPromoteAfter.future = [] ∧
      alookup tPromoteAfter.unassigned seg0 = none) := by
  constructor
  · intro t r completed succs t' hok s preds hlook hpreds
    unfold segment_completed_internal at hok
    split at hok
    · cases hok
    · rename_i assignedSegs hm
      split at hok
      · rename_i hcomp
        cases hok
        have hmem : (s, preds) ∈ futureAfterCompletion t.future completed succs :=
          alookup_eq_some_mem hlook
        have hmemf : (s, preds) ∈ (futureAfterCompletion t.future completed succs).filter
            (fun p => p.2.isEmpty) := by
          rw [List.mem_filter]
          refine ⟨hmem, ?_⟩
          subst hpreds
          rfl
        have hrdy : s ∈ ((futureAfterCompletion t.future completed succs).filter
            (fun p => p.2.isEmpty)).map (fun p => p.1) :=
          List.mem_map.mpr ⟨(s, preds), hmemf, rfl⟩
        constructor
        · dsimp only
          rw [alookup_foldl_ainsert_const, if_pos hrdy]
        · dsimp only
          rw [alookup_foldl_aerase, if_pos hrdy]
      · cases hok
  · exact ⟨rfl, rfl, rfl, rfl, rfl, rfl⟩

/-- Claim C7, witness: the general promotion property applied at the concrete
promotion scenario, for the ready successor `seg1`. -/
theorem segment_completed_promotes_ready_successors_witness :
    alookup tPromoteAfter.unassigned seg1 = some (Offset.mk 0 0) ∧
    alookup tPromoteAfter.future seg1 = none :=
  segment_completed_promotes_ready_successors.1 tPromote readerR seg0 succsPromote
    tPromoteAfter rfl seg1 [] rfl rfl

/-! ## Byte-stream reader (`byte_stream.rs`, `impl Read` and `impl Seek`) -/

/-- The reply of the async segment reader consumed by
`ByteStreamReader::read`: the payload bytes and the `end_of_segment` flag. -/
structure SegmentDataCmd where
  data : List Nat
  end_of_segment : Bool
deriving DecidableEq, Repr

inductive ReadError
  | segmentIsSealed
  | readerError
deriving DecidableEq, Repr

/-- The mutable state of `ByteStreamReader` relevant to `read`/`seek`: the
`offset: i64` read cursor. -/
structure ReaderState where
  offset : Int
deriving DecidableEq, Repr

/-- `impl Read for ByteStreamReader::read`, as a function of the current state,
the requested length `buf.len()` and the async reader's reply for the range at
`offset`. Returns the state after the call and the io result (count delivered
and the delivered bytes, `min(buf.len(), cmd.data.len())` of them). On any
error — including a reply flagged `end_of_segment` — the state is returned
unchanged: `self.offset` is only advanced in the success branch. -/
def byteStreamRead (st : ReaderState) (bufLen : Nat)
    (reply : Except Unit SegmentDataCmd) :
    ReaderState × Except ReadError (Nat × List Nat) :=
  match reply with
  | .error _ => (st, .error .readerError)
  | .ok cmd =>
    if cmd.end_of_segment then
      (st, .error .segmentIsSealed)
    else
      ({ st with offset := st.offset + min bufLen cmd.data.length },
        .ok (min bufLen cmd.data.length, cmd.data.take (min bufLen cmd.data.length)))

/-- Modelled from the spec: the async segment reader (`AsyncSegmentReaderImpl`,
an external collaborator — spec §2 row C3 — whose implementation is not among
the verified sources) serving a sealed segment with full content `content`, so
the tail is `content.length`. A read at `offset` for `len` bytes returns the
bytes of the requested range clipped to the tail, and flags `end_of_segment`
exactly when the range reaches the tail (`offset + len > tail`); per spec §8
property 4, a range lying entirely within `[0, tail)` is served in full. -/
def sealedSegmentReply (content : List Nat) (offset len : Nat) : SegmentDataCmd :=
  { data := (content.drop offset).take len,
    end_of_segment := decide (content.length < offset + len) }

/-- Claim C1: reading a sealed segment. A read whose byte range lies entirely
within `[0, tail)` succeeds, returns exactly the requested bytes and advances
the offset; a read that reaches the tail fails with the "segment is sealed"
error without advancing; and for any server reply whatsoever that carries the
`end_of_segment` flag, `read` returns the "segment is sealed" error and leaves
the offset untouched, regardless of how much data the reply carries. -/
theorem byteStreamRead_sealed_semantics :
    (∀ (content : List Nat) (o len : Nat), o + len ≤ content.length →
      byteStreamRead ⟨(o : Int)⟩ len (.ok (sealedSegmentReply content o len)) =
        (⟨(o : Int) + (len : Int)⟩, .ok (len, (content.drop o).take len))) ∧
    (∀ (content : List Nat) (o len : Nat), content.length < o + len →
      byteStreamRead ⟨(o : Int)⟩ len (.ok (sealedSegmentReply content o len)) =
        (⟨(o : Int)⟩, .error .segmentIsSealed)) ∧
    (∀ (st : ReaderState) (len : Nat) (cmd : SegmentDataCmd),
      cmd.end_of_segment = true →
      byteStreamRead st len (.ok cmd) = (st, .error .segmentIsSealed)) := by
  refine ⟨?_, ?_, ?_⟩
  · intro content o len h
    have hflag : (sealedSegmentReply content o len).end_of_segment = false :=
      decide_eq_false (Nat.not_lt.mpr h)
    have hlen : (sealedSegmentReply content o len).data.length = len := by
      simp only [sealedSegmentReply, List.length_take, List.length_drop]
      omega
    simp only [byteStreamRead, hflag, Bool.false_eq_true, if_false, hlen,
      Nat.min_self]
    have hdata : (sealedSegmentReply content o len).data.take len =
        (content.drop o).take len := by
      simp only [sealedSegmentReply, List.take_take, Nat.min_self]
    rw [hdata]
  · intro content o len h
    have hflag : (sealedSegmentReply content o len).end_of_segment = true :=
      decide_eq_true h
    simp only [byteStreamRead, hflag, if_true]
  · intro st len cmd h
    simp only [byteStreamRead, h, if_true]

/-- Claim C1, witness: on sealed content `[1,2,3]` (tail 3), reading 2 bytes at
offset 1 yields `[2,3]` and advances to 3; reading 2 bytes at offset 2 reaches
the tail and fails with "segment is sealed" without advancing. -/
theorem byteStreamRead_sealed_semantics_witness :
    byteStreamRead ⟨(1 : Int)⟩ 2 (.ok (sealedSegmentReply [1, 2, 3] 1 2)) =
      (⟨(3 : Int)⟩, .ok (2, [2, 3])) ∧
    byteStreamRead ⟨(2 : Int)⟩ 2 (.ok (sealedSegmentReply [1, 2, 3] 2 2)) =
      (⟨(2 : Int)⟩, .error .segmentIsSealed) :=
  ⟨byteStreamRead_sealed_semantics.1 [1, 2, 3] 1 2 (by decide),
    byteStreamRead_sealed_semantics.2.1 [1, 2, 3] 2 2 (by decide)⟩

/-! ## Byte-stream reader seek -/

inductive SeekFromM
  | start (offset : Nat)
  | current (offset : Int)
  | fromEnd (offset : Int)
deriving DecidableEq, Repr

inductive SeekError
  | exceedsSegmentLength
  | negativeOffset
  | metadataError
deriving DecidableEq, Repr

def twoPow63 : Int := 2 ^ 63

def twoPow64 : Int := 2 ^ 64

/-- Two's-complement wrap into the i64 range `[-2^63, 2^63)`: the effect of
Rust's `as i64` reinterpretation and of wrapping i64 addition. -/
def wrapI64 (x : Int) : Int := (x + twoPow63) % twoPow64 - twoPow63

/-- Rust `x as u64` for an i64 value `x`. -/
def toU64 (x : Int) : Nat := (x % twoPow64).toNat

/-- `impl Seek for ByteStreamReader::seek`. The tail is fetched freshly from
the segment metadata client on every call (`tailRes` is that fetch's outcome;
the data path is never consulted). `Start(o)` compares `offset as i64` — a
wrapping reinterpretation of the `u64` argument — against the tail;
`Current`/`End` resolve with i64 addition (wrapping, as in release builds).
Every error branch returns with `self.offset` untouched; the success branches
store the resolved offset and return it `as u64`. -/
def byteStreamSeek (st : ReaderState) (pos : SeekFromM) (tailRes : Except Unit Int) :
    ReaderState × Except SeekError Nat :=
  match tailRes with
  | .error _ => (st, .error .metadataError)
  | .ok tail =>
    match pos with
    | .start offset =>
      if wrapI64 offset > tail then
        (st, .error .exceedsSegmentLength)
      else
        ({ offset := wrapI64 offset }, .ok (toU64 (wrapI64 offset)))
    | .current offset =>
      if wrapI64 (st.offset + offset) < 0 then
        (st, .error .negativeOffset)
      else if wrapI64 (st.offset + offset) > tail then
        (st, .error .exceedsSegmentLength)
      else
        ({ offset := wrapI64 (st.offset + offset) }, .ok (toU64 (wrapI64 (st.offset + offset))))
    | .fromEnd offset =>
      if offset > 0 then
        (st, .error .exceedsSegmentLength)
      else if wrapI64 (tail + offset) < 0 then
        (st, .error .negativeOffset)
      else
        ({ offset := wrapI64 (tail + offset) }, .ok (toU64 (wrapI64 (tail + offset))))

theorem wrapI64_eq_self {x : Int} (h0 : -twoPow63 ≤ x) (h1 : x < twoPow63) :
    wrapI64 x = x := by
  unfold wrapI64
  have hmod : (x + twoPow63) % twoPow64 = x + twoPow63 := by
    refine Int.emod_eq_of_lt (by unfold twoPow63 at *; omega) ?_
    unfold twoPow63 twoPow64 at *
    omega
  omega

theorem wrapI64_high {x : Int} (h0 : twoPow63 ≤ x) (h1 : x < twoPow63 + twoPow64) :
    wrapI64 x = x - twoPow64 := by
  unfold wrapI64
  have hstep : (x + twoPow63) % twoPow64 = (x + twoPow63 - twoPow64) % twoPow64 := by
    conv_lhs => rw [show x + twoPow63 = x + twoPow63 - twoPow64 + 1 * twoPow64 by ring]
    exact Int.add_mul_emod_self
  have hmod : (x + twoPow63 - twoPow64) % twoPow64 = x + twoPow63 - twoPow64 := by
    refine Int.emod_eq_of_lt ?_ ?_
    · unfold twoPow63 twoPow64 at *
      omega
    · unfold twoPow63 twoPow64 at *
      omega
  rw [hstep, hmod]
  ring

theorem toU64_of_nonneg {x : Int} (h0 : 0 ≤ x) (h1 : x < twoPow64) :
    toU64 x = x.toNat := by
  unfold toU64
  rw [Int.emod_eq_of_lt h0 h1]

/-- Claim C9: whenever `ByteStreamReader::seek` returns an error — an invalid
resolved target or a failed metadata fetch of the tail — the reader's `offset`
field is exactly what it was before the call: a failed seek never moves the
read cursor. -/
theorem byteStreamSeek_error_preserves_offset (st : ReaderState) (pos : SeekFromM)
    (tailRes : Except Unit Int) (e : SeekError)
    (herr : (byteStreamSeek st pos tailRes).2 = .error e) :
    (byteStreamSeek st pos tailRes).1 = st := by
  cases tailRes with
  | error u => rfl
  | ok tail =>
    cases pos with
    | start o =>
      by_cases h1 : wrapI64 o > tail
      · simp only [byteStreamSeek, if_pos h1]
      · simp only [byteStreamSeek, if_neg h1] at herr
        cases herr
    | current d =>
      by_cases h1 : wrapI64 (st.offset + d) < 0
      · simp only [byteStreamSeek, if_pos h1]
      · by_cases h2 : wrapI64 (st.offset + d) > tail
        · simp only [byteStreamSeek, if_neg h1, if_pos h2]
        · simp only [byteStreamSeek, if_neg h1, if_neg h2] at herr
          cases herr
    | fromEnd d =>
      by_cases h1 : d > 0
      · simp only [byteStreamSeek, if_pos h1]
      · by_cases h2 : wrapI64 (tail + d) < 0
        · simp only [byteStreamSeek, if_neg h1, if_pos h2]
        · simp only [byteStreamSeek, if_neg h1, if_neg h2] at herr
          cases herr

/-- Claim C9, witness: `seek(End, 1)` against tail 10 fails (positive delta
from the end) and leaves the cursor at 5. -/
theorem byteStreamSeek_error_preserves_offset_witness :
    (byteStreamSeek ⟨(5 : Int)⟩ (.fromEnd 1) (.ok 10)).1 = ⟨(5 : Int)⟩ :=
  byteStreamSeek_error_preserves_offset ⟨(5 : Int)⟩ (.fromEnd 1) (.ok 10)
    .exceedsSegmentLength rfl

/-- Claim C6, counterexample to the claim as stated: the claim says
`Start(o)` errors exactly when `o > tail`, but the code compares `o as i64`;
for `o = 2^63` and tail 0 the cast wraps to `-2^63`, the comparison passes, and
the seek succeeds, storing a negative offset and returning `2^63`. -/
theorem byteStreamSeek_start_cast_counterexample :
    byteStreamSeek ⟨(0 : Int)⟩ (.start (2 ^ 63)) (.ok 0) =
      (⟨-(2 ^ 63 : Int)⟩, .ok (2 ^ 63)) ∧
    ((2 ^ 63 : Nat) : Int) > 0 := by
  exact ⟨rfl, by decide⟩

/-- Claim C6 (amended): `seek` resolves against the tail fetched per call from
the metadata client alone. With the reader's offset non-negative and offset
and tail in i64 range: `Start(o)` for `o < 2^63` errors exactly when
`o > tail`, else sets and returns `o`; `Start(o)` for `o ≥ 2^63` wraps through
the `as i64` cast, succeeds, and stores the negative `o - 2^64` (the deviation
from the claim as stated); `Current(d)` errors exactly when `offset + d < 0` or
`offset + d > tail`, else sets and returns `offset + d`; `End(d)` errors
exactly when `d > 0` or `tail + d < 0`, else sets and returns `tail + d`; and a
failed tail fetch fails the call. -/
theorem byteStreamSeek_resolution (st : ReaderState) (tail : Int)
    (ho0 : 0 ≤ st.offset) (ho1 : st.offset < twoPow63)
    (ht0 : 0 ≤ tail) (ht1 : tail < twoPow63) :
    (∀ o : Nat, (o : Int) < twoPow63 →
      byteStreamSeek st (.start o) (.ok tail) =
        if (o : Int) > tail then (st, .error .exceedsSegmentLength)
        else ({ offset := (o : Int) }, .ok o)) ∧
    (∀ o : Nat, twoPow63 ≤ (o : Int) → (o : Int) < twoPow64 →
      byteStreamSeek st (.start o) (.ok tail) =
        ({ offset := (o : Int) - twoPow64 }, .ok o)) ∧
    (∀ d : Int, -twoPow63 ≤ d → d < twoPow63 →
      (st.offset + d < 0 ∨ st.offset + d > tail) →
      ∃ e, byteStreamSeek st (.current d) (.ok tail) = (st, .error e)) ∧
    (∀ d : Int, -twoPow63 ≤ d → d < twoPow63 →
      0 ≤ st.offset + d → st.offset + d ≤ tail →
      byteStreamSeek st (.current d) (.ok tail) =
        ({ offset := st.offset + d }, .ok ((st.offset + d).toNat))) ∧
    (∀ d : Int, -twoPow63 ≤ d → d < twoPow63 →
      byteStreamSeek st (.fromEnd d) (.ok tail) =
        if d > 0 then (st, .error .exceedsSegmentLength)
        else if tail + d < 0 then (st, .error .negativeOffset)
        else ({ offset := tail + d }, .ok ((tail + d).toNat))) ∧
    (∀ pos, byteStreamSeek st pos (.error ()) = (st, .error .metadataError)) := by
  refine ⟨?_, ?_, ?_, ?_, ?_, ?_⟩
  · intro o ho
    have hw : wrapI64 (o : Int) = (o : Int) :=
      wrapI64_eq_self (by unfold twoPow63; omega) ho
    by_cases hgt : (o : Int) > tail
    · simp only [byteStreamSeek, hw, if_pos hgt]
    · simp only [byteStreamSeek, hw, if_neg hgt]
      have hu : toU64 (o : Int) = o := by
        rw [toU64_of_nonneg (by omega) (by unfold twoPow63 twoPow64 at *; omega)]
        exact Int.toNat_natCast o
      rw [hu]
  · intro o ho0' ho1'
    have hw : wrapI64 (o : Int) = (o : Int) - twoPow64 :=
      wrapI64_high ho0' (by unfold twoPow63 twoPow64 at *; omega)
    have hng : ¬ wrapI64 (o : Int) > tail := by
      rw [hw]
      unfold twoPow63 twoPow64 at *
      omega
    simp only [byteStreamSeek, hw]
    rw [if_neg (by unfold twoPow63 twoPow64 at *; omega : ¬ (o : Int) - twoPow64 > tail)]
    have hu : toU64 ((o : Int) - twoPow64) = o := by
      unfold toU64
      have hmod : ((o : Int) - twoPow64) % twoPow64 = (o : Int) % twoPow64 := by
        conv_lhs => rw [show (o : Int) - twoPow64 = (o : Int) + (-1) * twoPow64 by ring]
        exact Int.add_mul_emod_self
      rw [hmod, Int.emod_eq_of_lt (by omega) ho1', Int.toNat_natCast]
    rw [hu]
  · intro d hd0 hd1 hbad
    rcases hbad with hneg | hgt
    · have hw : wrapI64 (st.offset + d) = st.offset + d :=
        wrapI64_eq_self (by unfold twoPow63 at *; omega) (by unfold twoPow63 at *; omega)
      exact ⟨.negativeOffset, by simp only [byteStreamSeek, hw, if_pos hneg]⟩
    · by_cases hhi : st.offset + d < twoPow63
      · have hw : wrapI64 (st.offset + d) = st.offset + d :=
          wrapI64_eq_self (by unfold twoPow63 at *; omega) hhi
        have hnn : ¬ st.offset + d < 0 := by omega
        exact ⟨.exceedsSegmentLength,
          by simp only [byteStreamSeek, hw, if_neg hnn, if_pos hgt]⟩
      · have hw : wrapI64 (st.offset + d) = st.offset + d - twoPow64 :=
          wrapI64_high (by omega) (by unfold twoPow63 twoPow64 at *; omega)
        have hneg' : wrapI64 (st.offset + d) < 0 := by
          rw [hw]
          unfold twoPow63 twoPow64 at *
          omega
        exact ⟨.negativeOffset, by simp only [byteStreamSeek, if_pos hneg']⟩
  · intro d hd0 hd1 hnn hle
    have hw : wrapI64 (st.offset + d) = st.offset + d :=
      wrapI64_eq_self (by unfold twoPow63 at *; omega) (by unfold twoPow63 at *; omega)
    simp only [byteStreamSeek, hw]
    rw [if_neg (by omega : ¬ st.offset + d < 0), if_neg (by omega : ¬ st.offset + d > tail)]
    have hu : toU64 (st.offset + d) = (st.offset + d).toNat :=
      toU64_of_nonneg hnn (by unfold twoPow63 twoPow64 at *; omega)
    rw [hu]
  · intro d hd0 hd1
    by_cases hpos : d > 0
    · simp only [byteStreamSeek, if_pos hpos]
    · have hw : wrapI64 (tail + d) = tail + d :=
        wrapI64_eq_self (by unfold twoPow63 at *; omega) (by unfold twoPow63 at *; omega)
      by_cases hneg : tail + d < 0
      · simp only [byteStreamSeek, if_neg hpos, hw, if_pos hneg]
      · simp only [byteStreamSeek, if_neg hpos, hw, if_neg hneg]
        have hu : toU64 (tail + d) = (tail + d).toNat :=
          toU64_of_nonneg (by omega) (by unfold twoPow63 twoPow64 at *; omega)
        rw [hu]
  · intro pos
    rfl

/-- Claim C6, witness: from offset 0 against tail 10, `Start(5)` succeeds,
sets the cursor to 5 and returns 5. -/
theorem byteStreamSeek_resolution_witness :
    byteStreamSeek ⟨(0 : Int)⟩ (.start 5) (.ok 10) =
      ({ offset := (5 : Int) }, .ok 5) := by
  have h := (byteStreamSeek_resolution ⟨(0 : Int)⟩ 10 (by decide)
    (by unfold twoPow63; decide) (by decide) (by unfold twoPow63; decide)).1 5
    (by unfold twoPow63; decide)
  rw [if_neg (by decide)] at h
  exact h

/-! ## Byte-stream writer (`byte_stream.rs`, `impl Write` and `seal`) -/

/-- Modelled from the spec: `PendingEvent::MAX_WRITE_SIZE`, one wire frame's
payload budget (~8 MiB; `reactor/event.rs` is outside the verified sources).
Only its positivity matters to the claims below. -/
def MAX_WRITE_SIZE : Nat := 8 * 1024 * 1024

/-- A pending event as enqueued by the byte-stream writer through
`PendingEvent::without_header(None, payload, tx)`: no routing key, header-less
framing. -/
structure PendingEventM where
  routing_key : Option String
  data : List Nat
deriving DecidableEq, Repr

/-- The chunk split performed by the loop in `ByteStreamWriter::write`: each
iteration takes `min (buf.len() - position) MAX_WRITE_SIZE` bytes and advances;
the loop is do-while (it breaks only after enqueueing), so an empty buffer
still produces one empty chunk. -/
def chunkEvery : List Nat → Nat → List (List Nat)
  | buf, 0 => [buf]
  | buf, fuel + 1 =>
    if buf.length ≤ MAX_WRITE_SIZE then [buf]
    else buf.take MAX_WRITE_SIZE :: chunkEvery (buf.drop MAX_WRITE_SIZE) fuel

/-- `buf.length` units of fuel always suffice, since every loop iteration
consumes `min (remaining) MAX_WRITE_SIZE ≥ 1` bytes while any remain; fuel 0 is
reached only with `buf = []`, where the do-while loop still enqueues one empty
chunk. -/
def writeChunks (buf : List Nat) : List (List Nat) :=
  chunkEvery buf buf.length

theorem chunkEvery_join : ∀ (fuel : Nat) (buf : List Nat),
    buf.length ≤ fuel + MAX_WRITE_SIZE → (chunkEvery buf fuel).flatten = buf
  | 0, buf, _ => by
    simp [chunkEvery]
  | fuel + 1, buf, h => by
    rw [chunkEvery]
    by_cases hle : buf.length ≤ MAX_WRITE_SIZE
    · rw [if_pos hle]
      simp
    · rw [if_neg hle, List.flatten_cons,
        chunkEvery_join fuel (buf.drop MAX_WRITE_SIZE)
          (by
            simp only [List.length_drop]
            unfold MAX_WRITE_SIZE at h hle ⊢
            omega)]
      exact List.take_append_drop _ _

theorem chunkEvery_sizes : ∀ (fuel : Nat) (buf : List Nat),
    buf.length ≤ fuel + MAX_WRITE_SIZE →
    ∀ c ∈ chunkEvery buf fuel, c.length ≤ MAX_WRITE_SIZE
  | 0, buf, h => by
    intro c hc
    rw [chunkEvery] at hc
    rcases List.mem_singleton.mp hc with rfl
    omega
  | fuel + 1, buf, h => by
    intro c hc
    rw [chunkEvery] at hc
    by_cases hle : buf.length ≤ MAX_WRITE_SIZE
    · rw [if_pos hle] at hc
      rcases List.mem_singleton.mp hc with rfl
      exact hle
    · rw [if_neg hle] at hc
      rcases List.mem_cons.mp hc with rfl | hc2
      · simp only [List.length_take]
        omega
      · exact chunkEvery_sizes fuel (buf.drop MAX_WRITE_SIZE)
          (by
            simp only [List.length_drop]
            unfold MAX_WRITE_SIZE at h hle ⊢
            omega) c hc2


/-- The pending events enqueued by one `write(buf)` call: one per chunk. -/
def writeEvents (buf : List Nat) : List PendingEventM :=
  (writeChunks buf).map (fun c => { routing_key := none, data := c })

/-- What `write` observes when it calls `try_recv` on the last chunk's oneshot
completion handle. -/
inductive TryRecvW
  | pending
  | closed
  | resolved (r : Except Unit Unit)
deriving DecidableEq, Repr

inductive WriteError
  | oneshotError
  | appendFailed
  | sealFailed
deriving DecidableEq, Repr

/-- `impl Write for ByteStreamWriter::write`: chunk the buffer, enqueue one
pending event per chunk (the channel send blocks on backpressure, outside this
model), then `try_recv` the last chunk's handle. Returns the io result —
`Ok(buf.len())` unless the handle already carries a failure — together with the
retained event handle, as the index of the chunk whose oneshot receiver is
stored in `self.event_handle` (only the last chunk's receiver is ever kept;
`none` when the handle resolved successfully and was consumed). The writer
holds no sealed flag, so nothing in this computation depends on a preceding
`seal`. -/
def byteStreamWrite (buf : List Nat) (obs : TryRecvW) :
    Except WriteError (Nat × Option Nat) :=
  match obs with
  | .pending => .ok (buf.length, some ((writeChunks buf).length - 1))
  | .closed => .error .oneshotError
  | .resolved (.error _) => .error .appendFailed
  | .resolved (.ok _) => .ok (buf.length, none)

/-- Claim C8: `write(buf)` splits `buf` into consecutive chunks of at most
`MAX_WRITE_SIZE` bytes whose concatenation is `buf`, enqueues one pending event
per chunk with no routing key, retains only the last chunk's completion handle,
and returns `Ok(buf.len())` once the last chunk has been enqueued, without
waiting for the server's acknowledgment (the only observation made is a
non-blocking `try_recv`; a pending handle does not block the return). -/
theorem byteStreamWrite_chunking (buf : List Nat) :
    (writeChunks buf).flatten = buf ∧
    (∀ c ∈ writeChunks buf, c.length ≤ MAX_WRITE_SIZE) ∧
    writeEvents buf = (writeChunks buf).map (fun c => { routing_key := none, data := c }) ∧
    (∀ ev ∈ writeEvents buf, ev.routing_key = none) ∧
    byteStreamWrite buf .pending = .ok (buf.length, some ((writeChunks buf).length - 1)) := by
  refine ⟨chunkEvery_join buf.length buf (Nat.le_add_right _ _),
    chunkEvery_sizes buf.length buf (Nat.le_add_right _ _), rfl, ?_, rfl⟩
  intro ev hev
  obtain ⟨c, _, hc⟩ := List.mem_map.mp hev
  rw [← hc]

/-- Claim C8, witness: the 4-byte write forms a single chunk equal to the
buffer, its event has no routing key, and the call returns `Ok(4)` retaining
the handle of chunk 0. -/
theorem byteStreamWrite_chunking_witness :
    (writeChunks [1, 2, 3, 4]).flatten = [1, 2, 3, 4] ∧
    ([1, 2, 3, 4] : List Nat).length ≤ MAX_WRITE_SIZE ∧
    byteStreamWrite [1, 2, 3, 4] .pending = .ok (4, some 0) :=
  ⟨(byteStreamWrite_chunking [1, 2, 3, 4]).1,
    (byteStreamWrite_chunking [1, 2, 3, 4]).2.1 [1, 2, 3, 4] (by decide),
    (byteStreamWrite_chunking [1, 2, 3, 4]).2.2.2.2⟩


/-- The mutable state of `ByteStreamWriter`: the retained completion handle
(the writer has no other write-relevant state; in particular no sealed flag). -/
structure WriterState where
  event_handle : Option Nat
deriving DecidableEq, Repr

/-- `ByteStreamWriter::flush_internal`: with no retained handle there is
nothing to await; otherwise the outcome is the awaited oneshot's result (outer
error: the oneshot failed; inner: the append failed). -/
def flushInternal (handle : Option Nat) (res : Except Unit (Except Unit Unit)) :
    Except WriteError Unit :=
  match handle with
  | none => .ok ()
  | some _ =>
    match res with
    | .error _ => .error .oneshotError
    | .ok (.error _) => .error .appendFailed
    | .ok (.ok _) => .ok ()

/-- `ByteStreamWriter::seal`: take the retained handle and flush it, then ask
the metadata client to seal the segment. On success the writer state merely has
its handle consumed — no sealed flag exists. -/
def byteStreamSeal (w : WriterState) (flushRes : Except Unit (Except Unit Unit))
    (sealRes : Except Unit Unit) : Except WriteError WriterState :=
  match flushInternal w.event_handle flushRes with
  | .error e => .error e
  | .ok _ =>
    match sealRes with
    | .error _ => .error .sealFailed
    | .ok _ => .ok { event_handle := none }

/-- Claim C4, counterexample to the claim as stated: `seal` succeeds on a
drained writer, and the very next `write` of 4 bytes — whose enqueued chunk's
completion is still pending, as it is immediately after enqueueing — returns
`Ok(4)`, not an error. -/
theorem write_after_seal_succeeds :
    byteStreamSeal ⟨none⟩ (.ok (.ok ())) (.ok ()) = .ok ⟨none⟩ ∧
    byteStreamWrite [1, 2, 3, 4] .pending = .ok (4, some 0) :=
  ⟨rfl, rfl⟩

/-- Claim C4 (amended): `write` fails exactly when its `try_recv` observation
of the retained completion handle carries a failure (closed channel, or an
already-resolved append error — which is how a sealed segment eventually
surfaces); while the last chunk's completion is still pending, `write` returns
`Ok(buf.len())` even after a successful `seal`. A successful `seal` leaves the
writer with no retained handle and no other state, so no flag makes later
writes fail deterministically; the sealed-segment error surfaces on `flush`
(or a later write whose handle has resolved with the error). -/
theorem byteStreamWrite_error_iff :
    (∀ (buf : List Nat) (obs : TryRecvW),
      (∃ e, byteStreamWrite buf obs = .error e) ↔
        (obs = .closed ∨ obs = .resolved (.error ()))) ∧
    (∀ buf : List Nat, byteStreamWrite buf .pending =
      .ok (buf.length, some ((writeChunks buf).length - 1))) ∧
    (∀ (w : WriterState) (fr : Except Unit (Except Unit Unit)) (sr : Except Unit Unit)
        (w' : WriterState), byteStreamSeal w fr sr = .ok w' → w' = ⟨none⟩) ∧
    (∀ handle : Option Nat, flushInternal handle (.ok (.error ())) =
      if handle.isSome then .error .appendFailed else .ok ()) := by
  refine ⟨?_, ?_, ?_, ?_⟩
  · intro buf obs
    cases obs with
    | pending =>
      constructor
      · rintro ⟨e, he⟩
        cases he
      · rintro (h | h) <;> cases h
    | closed =>
      exact ⟨fun _ => Or.inl rfl, fun _ => ⟨.oneshotError, rfl⟩⟩
    | resolved r =>
      cases r with
      | error u =>
        exact ⟨fun _ => Or.inr rfl, fun _ => ⟨.appendFailed, rfl⟩⟩
      | ok u =>
        constructor
        · rintro ⟨e, he⟩
          cases he
        · rintro (h | h) <;> cases h
  · intro buf
    rfl
  · intro w fr sr w' hok
    unfold byteStreamSeal at hok
    split at hok
    · cases hok
    · cases sr with
      | error u => cases hok
      | ok u =>
        cases hok
        rfl
  · intro handle
    cases handle with
    | none => rfl
    | some i => rfl

/-- Claim C4, witness: a seal with a pending handle that flushes cleanly
yields the handle-free writer state. -/
theorem byteStreamWrite_error_iff_witness :
    (∃ e, byteStreamWrite [1, 2, 3] .closed = .error e) ∧
    WriterState.mk none = WriterState.mk none :=
  ⟨(byteStreamWrite_error_iff.1 [1, 2, 3] .closed).mpr (Or.inl rfl),
    byteStreamWrite_error_iff.2.2.1 ⟨some 0⟩ (.ok (.ok ())) (.ok ()) ⟨none⟩ rfl⟩

/-! ## Segment reactor termination and drain (`reactor/reactors.rs`) -/

/-- A pending append's completion handle, identified by an id. -/
structure PendingEv where
  id : Nat
deriving DecidableEq, Repr

/-- The server replies dispatched by `SegmentReactor::process_server_reply`. -/
inductive ReplyM
  | dataAppended (event_number : Int)
  | segmentIsSealed
  | noSuchSegment
  | wrongHost
  | unexpected
deriving DecidableEq, Repr

/-- The `Incoming` commands of the reactor's bounded channel (declared in
`reactor/event.rs` outside the verified sources; variants as consumed by
`SegmentReactor::run_once`). -/
inductive IncomingM
  | appendEvent (e : PendingEv)
  | serverReply (r : ReplyM)
  | closeSegmentWriter (close_reactor : Bool)
  | closeReactor
deriving DecidableEq, Repr

/-- Termination reasons; each corresponds to the `&'static str` the Rust code
returns and, during a drain, embeds in `SegmentWriterError::ReactorClosed`. -/
inductive TermReason
  | segmentSealed
  | noSuchSegment
  | unexpectedReply
  | closeSegmentReactor
deriving DecidableEq, Repr

/-- The segment writer as observed by `run_once`: `try_close` reports whether
`pending` and `inflight` have drained (the ack/reconnect bookkeeping on
`AppendEvent`, `DataAppended` and `WrongHost` touches only writer internals and
never terminates the reactor). -/
structure SegmentWriterM where
  canClose : Bool
deriving DecidableEq, Repr

/-- `SegmentReactor::process_server_reply`: `DataAppended` acks and sends
pending events (reconnecting on failure), `WrongHost` reconnects, and the loop
continues; `SegmentIsSealed`, `NoSuchSegment` and any unexpected reply
terminate. -/
def process_server_reply : ReplyM → Except TermReason Unit
  | .dataAppended _ => .ok ()
  | .segmentIsSealed => .error .segmentSealed
  | .noSuchSegment => .error .noSuchSegment
  | .wrongHost => .ok ()
  | .unexpected => .error .unexpectedReply

/-- `drain_recevier` (sic): closes the receiver, then fails every
`AppendEvent` still queued with `ReactorClosed` carrying the termination
reason; other queued commands are discarded. -/
def drain_recevier (queue : List IncomingM) (msg : TermReason) :
    List (PendingEv × TermReason) :=
  queue.filterMap (fun i =>
    match i with
    | .appendEvent e => some (e, msg)
    | _ => none)

/-- Outcome of one `SegmentReactor::run_once` step: the loop continues with
the rest of the queue, or the reactor terminates — reporting which queued
events were signalled with `ReactorClosed` on the way out; an empty queue
blocks in `recv`. -/
inductive StepResult
  | continues (rest : List IncomingM) (signalled : List (PendingEv × TermReason))
  | terminated (reason : TermReason) (signalled : List (PendingEv × TermReason))
  | blocked
deriving DecidableEq, Repr

/-- `SegmentReactor::run_once` on the head of the channel queue. Only the
server-reply error path calls `drain_recevier`; the `CloseSegmentWriter` (with
`close_reactor`) and `CloseReactor` paths return their `Err` to break the loop
without touching the queue. -/
def run_once (w : SegmentWriterM) : List IncomingM → StepResult
  | [] => .blocked
  | e :: rest =>
    match e with
    | .appendEvent _ => .continues rest []
    | .serverReply r =>
      match process_server_reply r with
      | .ok _ => .continues rest []
      | .error m => .terminated m (drain_recevier rest m)
    | .closeSegmentWriter close_reactor =>
      if close_reactor then .terminated .closeSegmentReactor []
      else .continues rest []
    | .closeReactor =>
      if w.canClose then .terminated .closeSegmentReactor []
      else .continues rest []

/-- Claim C5, counterexample to the claim as stated: the close-reactor
termination path does not drain. With the writer drained (`try_close` true) and
an `AppendEvent` still queued behind the `CloseReactor` command, `run_once`
terminates signalling nothing — although a drain of the remaining queue would
have signalled the pending event with `ReactorClosed`. -/
theorem reactor_close_does_not_drain :
    run_once ⟨true⟩ [.closeReactor, .appendEvent ⟨0⟩] =
      .terminated .closeSegmentReactor [] ∧
    drain_recevier [.appendEvent ⟨0⟩] .closeSegmentReactor =
      [(⟨0⟩, .closeSegmentReactor)] :=
  ⟨rfl, rfl⟩

/-- Claim C5 (amended): on the server-reply termination paths — unexpected
reply, segment sealed, no-such-segment — the reactor closes its receiver and
completes every pending `AppendEvent` remaining in the channel with a
`ReactorClosed` error carrying the termination reason; the close-reactor and
close-segment-writer termination paths, by contrast, exit without draining the
channel. -/
theorem reactor_server_reply_error_drains (w : SegmentWriterM) (r : ReplyM)
    (rest : List IncomingM) (m : TermReason)
    (herr : process_server_reply r = .error m) :
    (run_once w (.serverReply r :: rest) = .terminated m (drain_recevier rest m) ∧
      ∀ e, IncomingM.appendEvent e ∈ rest → (e, m) ∈ drain_recevier rest m) ∧
    (∀ (w' : SegmentWriterM) (rest' : List IncomingM),
      run_once w' (.closeSegmentWriter true :: rest') =
        .terminated .closeSegmentReactor []) ∧
    (∀ (w' : SegmentWriterM) (rest' : List IncomingM), w'.canClose = true →
      run_once w' (.closeReactor :: rest') = .terminated .closeSegmentReactor []) := by
  refine ⟨⟨?_, ?_⟩, ?_, ?_⟩
  · simp only [run_once, herr]
  · intro e he
    exact List.mem_filterMap.mpr ⟨.appendEvent e, he, rfl⟩
  · intro w' rest'
    rfl
  · intro w' rest' hcc
    simp only [run_once, hcc, if_true]

/-- Claim C5, witness: a `SegmentIsSealed` reply with one queued append behind
it terminates the reactor with that reason and signals the append with
`ReactorClosed`. -/
theorem reactor_server_reply_error_drains_witness :
    run_once ⟨false⟩ [.serverReply .segmentIsSealed, .appendEvent ⟨7⟩] =
      .terminated .segmentSealed [(⟨7⟩, .segmentSealed)] ∧
    (PendingEv.mk 7, TermReason.segmentSealed) ∈
      drain_recevier [.appendEvent ⟨7⟩] .segmentSealed := by
  have h := reactor_server_reply_error_drains ⟨false⟩ .segmentIsSealed
    [.appendEvent ⟨7⟩] .segmentSealed rfl
  exact ⟨h.1.1, h.1.2 ⟨7⟩ (List.mem_singleton.mpr rfl)⟩

/-! ## Table map read path (`tablemap.rs`) -/

inductive TableErrorM
  | connectionError
deriving DecidableEq, Repr

/-- The empty test shared by `TableMap::get` and `TableMap::get_all`: a raw
server value of zero bytes is reported as an absent key (`None`); otherwise the
bytes are deserialized (`decode`; total here — a malformed value panics in
Rust, outside these claims) and paired with the key version. -/
def tableValueOfRaw {V : Type} (decode : List Nat → V) (raw : List Nat × Int) :
    Option (V × Int) :=
  if raw.1.isEmpty then none else some (decode raw.1, raw.2)

/-- `TableMap::get`: the raw `(value bytes, version)` for the key — `v[0]` of
the `get_raw_values` reply — put through the empty test; server errors
propagate. -/
def tableMapGet {V : Type} (decode : List Nat → V)
    (readResult : Except TableErrorM (List Nat × Int)) :
    Except TableErrorM (Option (V × Int)) :=
  readResult.map (tableValueOfRaw decode)

/-- `TableMap::get_all`: the empty test applied entrywise to the reply. -/
def tableMapGetAll {V : Type} (decode : List Nat → V)
    (readResult : Except TableErrorM (List (List Nat × Int))) :
    Except TableErrorM (List (Option (V × Int))) :=
  readResult.map (fun v => v.map (tableValueOfRaw decode))

/-- Claim C10: `get` and `get_all` report a key as absent exactly when the raw
value bytes returned by the server are empty; consequently two keys whose raw
bytes are both empty — one never inserted, one whose stored value serializes to
zero bytes — are indistinguishable at this interface. -/
theorem tableMap_absent_iff_empty {V : Type} (decode : List Nat → V) :
    (∀ raw : List Nat × Int, tableValueOfRaw decode raw = none ↔ raw.1 = []) ∧
    (∀ raw : List Nat × Int,
      tableMapGet decode (.ok raw) = .ok (tableValueOfRaw decode raw)) ∧
    (∀ rows : List (List Nat × Int),
      tableMapGetAll decode (.ok rows) = .ok (rows.map (tableValueOfRaw decode))) ∧
    (∀ p q : List Nat × Int, p.1 = [] → q.1 = [] →
      tableValueOfRaw decode p = tableValueOfRaw decode q) := by
  refine ⟨?_, fun _ => rfl, fun _ => rfl, ?_⟩
  · intro raw
    unfold tableValueOfRaw
    by_cases h : raw.1.isEmpty
    · rw [if_pos h]
      simp only [true_iff]
      exact List.isEmpty_iff.mp h
    · rw [if_neg h]
      constructor
      · intro hh
        cases hh
      · intro hh
        exact absurd (List.isEmpty_iff.mpr hh) h
  · intro p q hp hq
    unfold tableValueOfRaw
    rw [if_pos (List.isEmpty_iff.mpr hp), if_pos (List.isEmpty_iff.mpr hq)]

/-- Claim C10, witness: a stored zero-byte value (version 3) and a
never-inserted key (version 7 slot) produce the same `None`. -/
theorem tableMap_absent_iff_empty_witness :
    tableValueOfRaw (fun l => l.length) ([], 3) =
      tableValueOfRaw (fun l => l.length) ([], 7) :=
  (tableMap_absent_iff_empty (fun l => l.length)).2.2.2 ([], 3) ([], 7) rfl rfl

end Pravega
